import Mathlib

/-!
Verification of the hybrid relevance scorer (`api/knowledge_service.py`,
`semantic_search`) and the chunking engine (`src/smart_ingestion.py`) of the
AI-bot repository.  Python strings are modelled as `List Char`; Python text
operations (`str.lower`, `str.split`, `in`, `str.count`, `str.startswith`)
are given ASCII-faithful Lean counterparts below (Python performs full
Unicode case folding, the model folds the ASCII range, which is exact on all
inputs appearing in this development).
-/

/-- Strings of the modelled program: Python `str` as a list of characters. -/
abbrev Str := List Char

/-- Convert a Lean string literal to the model's string type. -/
def S (s : String) : Str := s.data

/-- Model of Python `str.lower` (ASCII range). -/
def pyLower (s : Str) : Str := s.map Char.toLower

/-- Characters on which Python `str.split()` (no separator) splits: the
Unicode whitespace set used by `str.isspace`. -/
def pyIsSpace (c : Char) : Bool :=
  [9, 10, 11, 12, 13, 28, 29, 30, 31, 32, 133, 160, 5760,
   8192, 8193, 8194, 8195, 8196, 8197, 8198, 8199, 8200, 8201, 8202,
   8232, 8233, 8239, 8287, 12288].contains c.toNat

/-- Worker for `splitWs`: `cur` is the (possibly empty) word read so far.
Mirrors the left-to-right scan of CPython's whitespace split. -/
def splitWsGo (cur : Str) : Str → List Str
  | [] => if cur = [] then [] else [cur]
  | c :: cs =>
    if pyIsSpace c then
      if cur = [] then splitWsGo [] cs else cur :: splitWsGo [] cs
    else splitWsGo (cur ++ [c]) cs

/-- Model of Python `str.split()` with no argument: maximal runs of
non-whitespace characters, leading/trailing/repeated whitespace discarded. -/
def splitWs (s : Str) : List Str := splitWsGo [] s

/-- Model of Python substring containment `needle in hay`.  Note the Python
semantics that the empty string is a substring of everything. -/
def subIn (needle : Str) : Str → Bool
  | [] => needle.isEmpty
  | c :: cs => needle.isPrefixOf (c :: cs) || subIn needle cs

/-- Fuel-driven worker for `countOccs`; fuel bounds the number of scan
steps so the function is structurally recursive and kernel-evaluable. -/
def countOccsGo (needle : Str) : Nat → Str → Nat
  | _, [] => 0
  | 0, _ => 0
  | fuel + 1, c :: cs =>
    if needle.isPrefixOf (c :: cs) then
      1 + countOccsGo needle fuel (cs.drop (needle.length - 1))
    else countOccsGo needle fuel cs

/-- Model of Python `hay.count(needle)`: number of non-overlapping
occurrences scanning left to right (`"".count` conventions included). -/
def countOccs (hay needle : Str) : Nat :=
  if needle = [] then hay.length + 1 else countOccsGo needle hay.length hay

/-- Metadata of a knowledge-base chunk as the scorer reads it: every field is
looked up with `dict.get` and a default, so each is optional here.  The five
fields not used by `semantic_search` are carried so that the claim that the
scorer drops them is expressible. -/
structure KMeta where
  source_file : Option Str := none
  framework : Option Str := none
  category : Option Str := none
  sectionField : Option Str := none
  keywords : Option (List Str) := none
  language : Option Str := none
  chunk_type : Option Str := none
  chunk_index : Option Nat := none
  source_path : Option Str := none
deriving DecidableEq

/-- A chunk of the in-memory knowledge base (`chunks` entries of
`chunks_data.json` as consumed by `semantic_search`).  `word_count` is read
with `chunk.get('word_count', 0)` hence optional. -/
structure KChunk where
  id : Str
  content : Str
  metadata : KMeta
  word_count : Option Nat := none
deriving DecidableEq

/-- The metadata dictionary built for each `SearchResult` in
`semantic_search`: exactly five keys. -/
structure ResultMeta where
  source_file : Str
  framework : Str
  category : Str
  sectionField : Str
  word_count : Nat
deriving DecidableEq

/-- Model of the `SearchResult` pydantic model (the fields populated by
`semantic_search`). -/
structure SearchResult where
  id : Str
  content : Str
  metadata : ResultMeta
  score : ℚ
deriving DecidableEq

/-- The fixed `semantic_categories` table of `semantic_search`, in the
insertion (= iteration) order of the Python dict literal. -/
def semantic_categories : List (Str × List Str) :=
  [(S "feedback", [S "sbi", S "situation", S "behavior", S "impact", S "radical", S "candor"]),
   (S "coaching", [S "development", S "1:1", S "growth", S "mentoring", S "guidance"]),
   (S "delegation", [S "authority", S "responsibility", S "accountability", S "decision"]),
   (S "leadership", [S "management", S "leading", S "influence", S "direction"]),
   (S "communication", [S "conversation", S "discussion", S "talking", S "speaking"])]

/-- The raw (pre-normalization) score `semantic_search` accumulates for one
chunk: exact-phrase bonus, field matches, term frequency, category boosting
and the two framework bonuses, in the order of the source. -/
def rawScore (query : Str) (c : KChunk) : Nat :=
  let query_lower := pyLower query
  let query_words := splitWs query_lower
  let content := pyLower c.content
  let source_file := pyLower (c.metadata.source_file.getD [])
  let framework := pyLower (c.metadata.framework.getD [])
  (if subIn query_lower content then 100 else 0)
  + (query_words.map (fun w =>
      if 2 < w.length then
        (if subIn w source_file then 50 else 0) + (if subIn w framework then 30 else 0)
      else 0)).sum
  + (query_words.map (fun w =>
      if 2 < w.length then countOccs content w * w.length * 5 else 0)).sum
  + (semantic_categories.map (fun p =>
      if subIn p.1 query_lower then
        (p.2.map (fun k => if subIn k content then 20 else 0)).sum
      else 0)).sum
  + (if subIn (S "feedback") query_lower
        && ([S "situation", S "behavior", S "impact"].all (fun t => subIn t content))
     then 100 else 0)
  + (if subIn (S "coaching") query_lower
        && ([S "development", S "growth", S "conversation"].any (fun t => subIn t content))
     then 50 else 0)

/-- The metadata projection `semantic_search` builds for a result: the five
fixed keys with their `dict.get` defaults (`word_count` is read from the
chunk itself, not from its metadata dictionary). -/
def projMeta (c : KChunk) : ResultMeta :=
  { source_file := c.metadata.source_file.getD (S "Unknown")
    framework := c.metadata.framework.getD (S "Unknown")
    category := c.metadata.category.getD (S "General")
    sectionField := c.metadata.sectionField.getD []
    word_count := c.word_count.getD 0 }

/-- Construction of one `SearchResult` from a scored chunk, including the
normalization `float(score) / 100.0`. -/
def mkResult (p : KChunk × Nat) : SearchResult :=
  { id := p.1.id, content := p.1.content, metadata := projMeta p.1,
    score := (p.2 : ℚ) / 100 }

/-- The candidate pool of `semantic_search`: each chunk paired with its raw
score, kept only when the score is strictly positive, in corpus order. -/
def scoredChunks (query : Str) (chunks : List KChunk) : List (KChunk × Nat) :=
  chunks.filterMap (fun c =>
    let s := rawScore query c
    if 0 < s then some (c, s) else none)

/-- The ordering used to rank candidates: higher score first.  Python's
`list.sort(key=..., reverse=True)` is a stable sort; a stable sort with
respect to a total preorder has a unique result, so the (stable) insertion
sort below computes exactly the list Python's Timsort produces. -/
def scoreGE (a b : KChunk × Nat) : Prop := b.2 ≤ a.2

instance : DecidableRel scoreGE := fun a b => Nat.decLe b.2 a.2

instance : IsTotal (KChunk × Nat) scoreGE :=
  ⟨fun a b => (Nat.le_total b.2 a.2).elim Or.inl Or.inr⟩

instance : IsTrans (KChunk × Nat) scoreGE :=
  ⟨fun _ _ _ h1 h2 => Nat.le_trans h2 h1⟩

/-- Model of `semantic_search(query, chunks, top_k)` of
`api/knowledge_service.py`: score every chunk, keep strictly positive
scores, sort stably by descending score, truncate to `top_k`, and package
each survivor as a `SearchResult`. -/
def semantic_search (query : Str) (chunks : List KChunk) (top_k : Nat := 5) :
    List SearchResult :=
  (((scoredChunks query chunks).insertionSort scoreGE).take top_k).map mkResult

/-- The raw score of one chunk, written following the specification text of
the scoring algorithm (its five numbered steps): exact-phrase bonus; per
token both field bonuses and the term-frequency contribution in one sum; 20
per present table term for each category named in the query; and the two
framework bonuses.  Occurrence counting is the non-overlapping left-to-right
count of `str.count`. -/
def specRawScore (q : Str) (c : KChunk) : Nat :=
  let ql := pyLower q
  let toks := splitWs ql
  let content := pyLower c.content
  (if subIn ql content then 100 else 0)
  + (toks.map (fun t =>
      if 2 < t.length then
        (if subIn t (pyLower (c.metadata.source_file.getD [])) then 50 else 0)
        + (if subIn t (pyLower (c.metadata.framework.getD [])) then 30 else 0)
        + countOccs content t * t.length * 5
      else 0)).sum
  + (semantic_categories.map (fun p =>
      if subIn p.1 ql then 20 * p.2.countP (fun k => subIn k content) else 0)).sum
  + (if subIn (S "feedback") ql = true
        ∧ subIn (S "situation") content = true
        ∧ subIn (S "behavior") content = true
        ∧ subIn (S "impact") content = true
     then 100 else 0)
  + (if subIn (S "coaching") ql = true
        ∧ (subIn (S "development") content = true
           ∨ subIn (S "growth") content = true
           ∨ subIn (S "conversation") content = true)
     then 50 else 0)

/-!
Chunking Engine (`src/smart_ingestion.py`).  JSON values are modelled by
`JVal`; Python dicts coming from JSON appear as association lists without
duplicate keys (the parser below collapses duplicates exactly the way the
Python dict constructor does).  JSON numbers with a fraction or exponent
become exact rationals here while Python stores IEEE doubles; no claim
depends on the value of such a number.
-/

/-- JSON values as produced by `json.loads` (Python also accepts the
non-finite literals `NaN`, `Infinity` and `-Infinity`). -/
inductive JVal where
  | null
  | bool (b : Bool)
  | int (n : Int)
  | float (q : ℚ)
  | jnan
  | jinf
  | jninf
  | str (s : Str)
  | arr (items : List JVal)
  | obj (fields : List (Str × JVal))

/-- Lookup in a JSON object (`dict.get`): fields are duplicate-free, find
the value of the key if present. -/
def objGet (fields : List (Str × JVal)) (k : Str) : Option JVal :=
  match fields.find? (fun p => p.1 == k) with
  | some p => some p.2
  | none => none

/-- Model of Python `d[k] = v` / dict-literal merging on an association
list: an existing key keeps its position and gets the new value, a new key
is appended at the end. -/
def dictInsert (k : Str) (v : JVal) : List (Str × JVal) → List (Str × JVal)
  | [] => [(k, v)]
  | p :: rest => if p.1 == k then (k, v) :: rest else p :: dictInsert k v rest

/-- Decimal representation of a natural number (`str(n)` for `n ≥ 0`). -/
def natRepr (n : Nat) : Str := Nat.toDigits 10 n

/-- Decimal representation of an integer (`str(n)`). -/
def intRepr (n : Int) : Str :=
  if n < 0 then '-' :: natRepr n.natAbs else natRepr n.natAbs

/-- One ingested source document as produced by the document processor (the
fields `smart_ingestion.py` reads). -/
structure RawDoc where
  filename : Str
  file_path : Str
  content : Str
  word_count : Nat
  processing_status : Str
deriving DecidableEq

/-- One chunk as built by the Chunking Engine (both paths): identifier,
content, a metadata dictionary, and the derived counts. -/
structure IChunk where
  id : Str
  content : Str
  metadata : List (Str × JVal)
  word_count : Nat
  char_count : Nat

/-- Left brace character (written via its code point to keep string and
character literals brace-free). -/
def lbrace : Char := Char.ofNat 123

/-- Right brace character. -/
def rbrace : Char := Char.ofNat 125

/-- JSON insignificant whitespace (the four characters `json.loads`
skips between tokens). -/
def jsonWs (c : Char) : Bool := c == ' ' || c == '\t' || c == '\n' || c == '\r'

/-- Skip JSON whitespace. -/
def skipWs (s : Str) : Str := s.dropWhile jsonWs

/-- Value of a hexadecimal digit. -/
def hexDigit (c : Char) : Option Nat :=
  if '0' ≤ c ∧ c ≤ '9' then some (c.toNat - 48)
  else if 'a' ≤ c ∧ c ≤ 'f' then some (c.toNat - 87)
  else if 'A' ≤ c ∧ c ≤ 'F' then some (c.toNat - 55)
  else none

/-- Parse the body of a JSON string after the opening quote, returning the
decoded characters and the input after the closing quote.  Escapes follow
`json.loads` (strict mode): raw control characters are rejected, `\\uXXXX`
escapes decode surrogate pairs; a lone surrogate parses successfully (as in
Python) though its decoded character is unrepresentable here, and no claim
touches that case.  Fuel bounds the scan for structural recursion. -/
def parseStrBody : Nat → Str → Option (Str × Str)
  | _, [] => none
  | 0, _ => none
  | fuel + 1, c :: cs =>
    let cont := fun (ch : Char) (rest : Str) =>
      (parseStrBody fuel rest).map (fun r => (ch :: r.1, r.2))
    if c == '"' then some ([], cs)
    else if c == '\\' then
      match cs with
      | [] => none
      | e :: cs2 =>
        if e == '"' then cont '"' cs2
        else if e == '\\' then cont '\\' cs2
        else if e == '/' then cont '/' cs2
        else if e == 'b' then cont (Char.ofNat 8) cs2
        else if e == 'f' then cont (Char.ofNat 12) cs2
        else if e == 'n' then cont (Char.ofNat 10) cs2
        else if e == 'r' then cont (Char.ofNat 13) cs2
        else if e == 't' then cont (Char.ofNat 9) cs2
        else if e == 'u' then
          match cs2 with
          | a :: b :: c2 :: d :: cs3 =>
            match hexDigit a, hexDigit b, hexDigit c2, hexDigit d with
            | some ha, some hb, some hc, some hd =>
              let n := ((ha * 16 + hb) * 16 + hc) * 16 + hd
              if 0xD800 ≤ n ∧ n ≤ 0xDBFF then
                match cs3 with
                | '\\' :: 'u' :: a2 :: b2 :: c4 :: d2 :: cs4 =>
                  match hexDigit a2, hexDigit b2, hexDigit c4, hexDigit d2 with
                  | some ha2, some hb2, some hc2, some hd2 =>
                    let m := ((ha2 * 16 + hb2) * 16 + hc2) * 16 + hd2
                    if 0xDC00 ≤ m ∧ m ≤ 0xDFFF then
                      cont (Char.ofNat (0x10000 + (n - 0xD800) * 0x400 + (m - 0xDC00))) cs4
                    else cont (Char.ofNat n) cs3
                  | _, _, _, _ => cont (Char.ofNat n) cs3
                | _ => cont (Char.ofNat n) cs3
              else cont (Char.ofNat n) cs3
            | _, _, _, _ => none
          | _ => none
        else none
    else if c.toNat < 32 then none
    else cont c cs

/-- Split a leading run of decimal digits. -/
def digitSpan (s : Str) : Str × Str :=
  (s.takeWhile Char.isDigit, s.dropWhile Char.isDigit)

/-- Numeric value of a digit string. -/
def digitsToNat (ds : Str) : Nat :=
  ds.foldl (fun acc c => acc * 10 + (c.toNat - 48)) 0

/-- Parse a JSON number per the RFC grammar used by `json.loads`
(`-? (0 | [1-9][0-9]*) frac? exp?`).  A lexeme with a fraction or exponent
becomes a `JVal.float` holding the exact decimal value. -/
def parseNumber (s : Str) : Option (JVal × Str) :=
  let signSplit : Bool × Str :=
    match s with
    | '-' :: rest => (true, rest)
    | _ => (false, s)
  let neg := signSplit.1
  let s1 := signSplit.2
  match s1 with
  | [] => none
  | c :: _ =>
    if ¬ c.isDigit then none
    else
      let ip := (digitSpan s1).1
      let r1 := (digitSpan s1).2
      if 1 < ip.length ∧ ip.head? = some '0' then none
      else
        let fracSplit : Str × Str × Bool :=
          match r1 with
          | '.' :: rest =>
            let d := digitSpan rest
            (d.1, d.2, !d.1.isEmpty)
          | _ => ([], r1, true)
        let fd := fracSplit.1
        let r2 := fracSplit.2.1
        if fracSplit.2.2 = false then none
        else
          let expSplit : Int × Str × Bool × Bool :=
            match r2 with
            | 'e' :: rest | 'E' :: rest =>
              let signSplit2 : Int × Str :=
                match rest with
                | '+' :: rr => (1, rr)
                | '-' :: rr => (-1, rr)
                | _ => (1, rest)
              let d := digitSpan signSplit2.2
              (signSplit2.1 * Int.ofNat (digitsToNat d.1), d.2, !d.1.isEmpty, true)
            | _ => (0, r2, true, false)
          let ex := expSplit.1
          let r3 := expSplit.2.1
          if expSplit.2.2.1 = false then none
          else
            let sgn : ℚ := if neg then -1 else 1
            if expSplit.2.2.2 || !fd.isEmpty then
              let mag : ℚ :=
                ((digitsToNat ip : ℚ) + (digitsToNat fd : ℚ) / (10 : ℚ) ^ fd.length)
                  * (10 : ℚ) ^ ex
              some (.float (sgn * mag), r3)
            else
              some (.int (if neg then -(Int.ofNat (digitsToNat ip)) else Int.ofNat (digitsToNat ip)), r3)

mutual

/-- Parse one JSON value at the head of the input (whitespace already
skipped), returning it and the remaining input.  Fuel decreases on every
recursive call; `jsonParse` supplies enough fuel that it never runs out
(every call consumes at least one character). -/
def parseVal : Nat → Str → Option (JVal × Str)
  | 0, _ => none
  | fuel + 1, s =>
    match s with
    | [] => none
    | c :: cs =>
      if c == lbrace then parseMembers fuel (skipWs cs) [] true
      else if c == '[' then parseItems fuel (skipWs cs) [] true
      else if c == '"' then
        (parseStrBody (cs.length + 1) cs).map (fun r => (.str r.1, r.2))
      else if (S "true").isPrefixOf s then some (.bool true, s.drop 4)
      else if (S "false").isPrefixOf s then some (.bool false, s.drop 5)
      else if (S "null").isPrefixOf s then some (.null, s.drop 4)
      else if (S "NaN").isPrefixOf s then some (.jnan, s.drop 3)
      else if (S "Infinity").isPrefixOf s then some (.jinf, s.drop 8)
      else if (S "-Infinity").isPrefixOf s then some (.jninf, s.drop 9)
      else parseNumber s

/-- Parse the members of a JSON object after the opening brace (whitespace
skipped); `first` is true when no member has been read yet, `acc` holds the
members read so far with Python-dict duplicate handling. -/
def parseMembers : Nat → Str → List (Str × JVal) → Bool → Option (JVal × Str)
  | 0, _, _, _ => none
  | fuel + 1, s, acc, first =>
    match s with
    | [] => none
    | c :: cs =>
      if first && c == rbrace then some (.obj acc, cs)
      else if c == '"' then
        match parseStrBody (cs.length + 1) cs with
        | none => none
        | some (key, r1) =>
          match skipWs r1 with
          | ':' :: r2 =>
            match parseVal fuel (skipWs r2) with
            | none => none
            | some (v, r3) =>
              let acc2 := dictInsert key v acc
              match skipWs r3 with
              | [] => none
              | c2 :: r4 =>
                if c2 == ',' then parseMembers fuel (skipWs r4) acc2 false
                else if c2 == rbrace then some (.obj acc2, r4)
                else none
          | _ => none
      else none

/-- Parse the items of a JSON array after the opening bracket (whitespace
skipped); `acc` holds the items read so far in reverse. -/
def parseItems : Nat → Str → List JVal → Bool → Option (JVal × Str)
  | 0, _, _, _ => none
  | fuel + 1, s, acc, first =>
    match s with
    | [] => none
    | c :: cs =>
      if first && c == ']' then some (.arr acc.reverse, cs)
      else
        match parseVal fuel s with
        | none => none
        | some (v, r1) =>
          match skipWs r1 with
          | [] => none
          | c2 :: r2 =>
            if c2 == ',' then parseItems fuel (skipWs r2) (v :: acc) false
            else if c2 == ']' then some (.arr (v :: acc).reverse, r2)
            else none

end

/-- Model of `json.loads`: parse exactly one JSON value with optional
surrounding whitespace; any trailing content is an error. -/
def jsonParse (s : Str) : Option JVal :=
  match parseVal (s.length + 1) (skipWs s) with
  | some (v, rest) => if skipWs rest = [] then some v else none
  | none => none

/-- Model of `re.search(r'\x7b.*\x7d', ai_response, re.DOTALL)` followed by
`.group()`: with a greedy `.*` and DOTALL this matches from the first left
brace to the last right brace of the whole text, provided that last right
brace lies strictly after the first left brace; otherwise there is no
match. -/
def extractBraces (s : Str) : Option Str :=
  match s.findIdx? (fun c => c == lbrace) with
  | none => none
  | some p =>
    match s.reverse.findIdx? (fun c => c == rbrace) with
    | none => none
    | some rq =>
      let q := s.length - 1 - rq
      if p < q then some ((s.drop p).take (q - p + 1)) else none

/-- Python `str(...)` of a `chunk_id` value, for the value shapes the
chunking prompt can produce (a string or an integer).  Python's `str` is
total; the model conservatively reports other shapes as malformed, and every
theorem about the AI-assisted path is conditioned on this builder
succeeding. -/
def pyFormatId : JVal → Option Str
  | .str s => some s
  | .int n => some (intRepr n)
  | _ => none

/-- The `chunk_data['content']` access of the parse loop: must be present
and a string (`.split()` is called on it); anything else raises. -/
def chunkContentOf (cf : List (Str × JVal)) : Option Str :=
  match objGet cf (S "content") with
  | some (.str s) => some s
  | _ => none

/-- The `chunk_data['metadata']` access: must be present and an object (it
is `**`-unpacked); anything else raises. -/
def chunkMetaOf (cf : List (Str × JVal)) : Option (List (Str × JVal)) :=
  match objGet cf (S "metadata") with
  | some (.obj m) => some m
  | _ => none

/-- The `chunk_data.get('chunk_id', i)` value as formatted into the chunk
id (the enumerate index when absent). -/
def chunkIdOf (cf : List (Str × JVal)) (i : Nat) : Option Str :=
  match objGet cf (S "chunk_id") with
  | none => some (intRepr (Int.ofNat i))
  | some v => pyFormatId v

/-- Build one chunk from entry `i` of the parsed `chunks` array: the entry
must be an object with a string `content` and an object `metadata`; the
produced chunk gets `id = f"{filename}_{chunk_id or i}"`, the metadata
merged with `source_file`, `source_path` and `chunk_index`, and the derived
counts of its content.  Any malformed entry raises in Python and is
reported as `none` here. -/
def buildChunkItem (doc : RawDoc) (i : Nat) : JVal → Option IChunk
  | .obj cf =>
    (chunkContentOf cf).bind fun content =>
      (chunkMetaOf cf).bind fun m =>
        (chunkIdOf cf i).map fun cid =>
          { id := doc.filename ++ '_' :: cid
            content := content
            metadata := dictInsert (S "chunk_index") (.int (Int.ofNat i))
              (dictInsert (S "source_path") (.str doc.file_path)
                (dictInsert (S "source_file") (.str doc.filename) m))
            word_count := (splitWs content).length
            char_count := content.length }
  | _ => none

/-- The parse loop over the `chunks` array, with the enumerate index. -/
def buildChunkItems (doc : RawDoc) : List JVal → Nat → Option (List IChunk)
  | [], _ => some []
  | item :: rest, i =>
    (buildChunkItem doc i item).bind fun c =>
      (buildChunkItems doc rest (i + 1)).map fun cs => c :: cs

/-- Assemble chunks from the parsed response object: `chunks` is looked up
with `.get('chunks', [])`, so a missing key yields zero chunks without
error; a non-array value raises (none). -/
def buildChunks : JVal → RawDoc → Option (List IChunk)
  | .obj fields, doc =>
    match objGet fields (S "chunks") with
    | none => some []
    | some (.arr items) => buildChunkItems doc items 0
    | some _ => none
  | _, _ => none

/-- The synthesized context header of a fallback chunk (part numbers are
1-based). -/
def fallbackHeader (doc : RawDoc) (k : Nat) : Str :=
  S "CONTEXT: " ++ doc.filename ++ S " - Part " ++ natRepr (k + 1) ++ S "\n\n"

/-- The k-th (0-based) fallback chunk: the 400-word window starting at word
position 400·k, joined with single spaces, behind the synthesized header. -/
def fallbackChunkAt (doc : RawDoc) (words : List Str) (k : Nat) : IChunk :=
  let chunk_words := (words.drop (400 * k)).take 400
  let chunk_content := List.intercalate [' '] chunk_words
  { id := doc.filename ++ S "_fallback_" ++ natRepr k
    content := fallbackHeader doc k ++ chunk_content
    metadata := [(S "source_file", .str doc.filename),
                 (S "source_path", .str doc.file_path),
                 (S "framework", .str (S "Unknown")),
                 (S "category", .str (S "General")),
                 (S "section", .str (S "Part " ++ natRepr (k + 1))),
                 (S "keywords", .arr []),
                 (S "language", .str (S "unknown")),
                 (S "chunk_type", .str (S "fallback")),
                 (S "chunk_index", .int (Int.ofNat k))]
    word_count := chunk_words.length
    char_count := chunk_content.length }

/-- Model of `_fallback_chunking`: split the document content into words,
iterate `i = 0, 400, 800, ...` (hence `ceil(len/400)` chunks) and emit one
chunk per window. -/
def fallback_chunking (doc : RawDoc) : List IChunk :=
  let words := splitWs doc.content
  (List.range ((words.length + 399) / 400)).map (fallbackChunkAt doc words)

/-- Model of `_parse_chunking_response`: extract the first-brace-to-last-
brace span, `json.loads` it, and build the chunk list; any failure in this
pipeline is caught by the surrounding `except` and answered with the
mechanical fallback. -/
def parse_chunking_response (ai_response : Str) (doc : RawDoc) : List IChunk :=
  (((extractBraces ai_response).bind fun sub =>
      (jsonParse sub).bind fun v => buildChunks v doc)).getD
    (fallback_chunking doc)

/-- The chunking prompt of `_build_chunking_prompt`, with the document
content and filename interpolated (literal braces of the f-string written
via \x7b and \x7d). -/
def build_chunking_prompt (content : Str) (filename : Str) : Str :=
  S "You are an expert at organizing management knowledge for AI retrieval systems.\n\nYour task: Analyze this management document and break it into optimal chunks for semantic search.\n\nDOCUMENT: " ++ filename ++ S "\nCONTENT:\n" ++ content ++ S "\n\nREQUIREMENTS:\n1. Create 3-8 chunks of 300-500 words each\n2. Each chunk must be standalone with context header\n3. Generate rich metadata for each chunk\n4. Focus on management frameworks, processes, and actionable guidance\n\nOUTPUT FORMAT (JSON):\n\x7b\n    \"document_analysis\": \x7b\n        \"main_framework\": \"Name of the primary framework/concept\",\n        \"category\": \"Performance Management | Leadership | Communication | etc.\",\n        \"key_topics\": [\"topic1\", \"topic2\", \"topic3\"]\n    \x7d,\n    \"chunks\": [\n        \x7b\n            \"chunk_id\": \"unique_id_1\",\n            \"content\": \"CONTEXT HEADER: [Framework Name - Section]\n\nChunk content here...\",\n            \"metadata\": \x7b\n                \"framework\": \"Framework name\",\n                \"category\": \"Performance Management\",\n                \"section\": \"Specific section name\",\n                \"keywords\": [\"keyword1\", \"keyword2\", \"keyword3\"],\n                \"language\": \"english\" or \"hebrew\",\n                \"chunk_type\": \"framework_explanation | steps | examples | guidelines\"\n            \x7d\n        \x7d\n    ]\n\x7d\n\nCRITICAL:\n- Each chunk must include a context header\n- Content must be actionable for managers\n- Keywords should be specific management terms\n- Detect language (english/hebrew) automatically\n- If document is bilingual, create separate chunks for each language"

/-- Model of `_intelligent_chunking` with the text-generation provider as
an oracle: `none` models the provider call raising an exception (handled by
the internal `try/except` with the mechanical fallback), `some r` a returned
completion.  Documents under 100 words are skipped with zero chunks. -/
def intelligent_chunking (ai : Str → Option Str) (doc : RawDoc) : List IChunk :=
  if doc.word_count < 100 then []
  else
    match ai (build_chunking_prompt doc.content doc.filename) with
    | none => fallback_chunking doc
    | some resp => parse_chunking_response resp doc

/-- The processing status the batch loop compares against. -/
def successStatus : Str := S "success"

/-- The per-document batch loop of `process_materials_directory` (steps 2's
`for doc in raw_documents`), abstracted over the per-document chunker so the
`try/except` containment is stated for any chunker behavior: a document
whose extraction failed goes to `failed_documents` (no error annotation), a
chunker exception sends the document to `failed_documents` with its error
string, and chunks of successful documents are accumulated in order. -/
def chunkBatch (chunker : RawDoc → Except Str (List IChunk)) :
    List RawDoc → List IChunk × List (RawDoc × Option Str)
  | [] => ([], [])
  | doc :: rest =>
    let r := chunkBatch chunker rest
    if doc.processing_status = successStatus then
      match chunker doc with
      | .ok cs => (cs ++ r.1, r.2)
      | .error e => (r.1, (doc, some e) :: r.2)
    else (r.1, (doc, none) :: r.2)

/-- The actual chunker the batch loop runs: `_intelligent_chunking` never
raises (its AI call is guarded by its own `try/except`), so it is a total
`.ok`. -/
def okChunker (ai : Str → Option Str) : RawDoc → Except Str (List IChunk) :=
  fun doc => .ok (intelligent_chunking ai doc)

/-- The configured target word-count band `self.chunk_size_range`. -/
def chunk_size_range : Nat × Nat := (300, 500)

/-- The "Short chunk" quality annotation. -/
def shortMsg (c : IChunk) : Str :=
  S "Short chunk: " ++ c.id ++ S " (" ++ natRepr c.word_count ++ S " words)"

/-- The "Long chunk" quality annotation. -/
def longMsg (c : IChunk) : Str :=
  S "Long chunk: " ++ c.id ++ S " (" ++ natRepr c.word_count ++ S " words)"

/-- The "Missing context header" quality annotation. -/
def headerMsg (c : IChunk) : Str := S "Missing context header: " ++ c.id

/-- The "Unknown framework" quality annotation. -/
def unknownMsg (c : IChunk) : Str := S "Unknown framework: " ++ c.id

/-- Recognized context-header markers (`str.startswith` with a tuple). -/
def hasContextHeader (content : Str) : Bool :=
  (S "CONTEXT:").isPrefixOf content || (S "FRAMEWORK:").isPrefixOf content
    || (S "===").isPrefixOf content

/-- Whether `metadata.get('framework') == 'Unknown'` (a missing or
non-string value never equals the string). -/
def frameworkUnknown (m : List (Str × JVal)) : Bool :=
  match objGet m (S "framework") with
  | some (.str s) => s == S "Unknown"
  | _ => false

/-- The annotations `_identify_quality_issues` emits for one chunk, in
source order: the word-count `if/elif`, the header check, the framework
check.  Note `chunk_size_range.2 * 3 / 2 = 750` models the Python
comparison `word_count > 500 * 1.5`. -/
def issuesFor (c : IChunk) : List Str :=
  (if c.word_count < chunk_size_range.1 then [shortMsg c]
   else if chunk_size_range.2 * 3 / 2 < c.word_count then [longMsg c]
   else [])
  ++ (if hasContextHeader c.content then [] else [headerMsg c])
  ++ (if frameworkUnknown c.metadata then [unknownMsg c] else [])

/-- Model of `_identify_quality_issues`: the per-chunk annotations
concatenated over the chunk list; the chunk list itself is left untouched
(the audit is a pure function into a report). -/
def identify_quality_issues (cs : List IChunk) : List Str :=
  (cs.map issuesFor).flatten

/-- Agreement of two knowledge-base chunks on everything `semantic_search`
reads: identifier, content, chunk-level word count, and the four metadata
fields that are projected into results.  The remaining metadata fields
(`keywords`, `language`, `chunk_type`, `chunk_index`, `source_path`) are
exactly the ones the scorer drops. -/
def sameVisible (c c' : KChunk) : Prop :=
  c.id = c'.id ∧ c.content = c'.content ∧ c.word_count = c'.word_count
    ∧ c.metadata.source_file = c'.metadata.source_file
    ∧ c.metadata.framework = c'.metadata.framework
    ∧ c.metadata.category = c'.metadata.category
    ∧ c.metadata.sectionField = c'.metadata.sectionField

instance (c c' : KChunk) : Decidable (sameVisible c c') := by
  unfold sameVisible; infer_instance

/-- Relation between scored candidates that makes the output of the scorer
indistinguishable: equal scores and equal packaged results. -/
def resultRel (a b : KChunk × Nat) : Prop := a.2 = b.2 ∧ mkResult a = mkResult b

/-!
Concrete inputs used by the witness and counterexample theorems below.
-/

/-- A knowledge-base chunk with no metadata, for the empty-query analysis. -/
def c2chunk : KChunk :=
  { id := S "c", content := S "hello world", metadata := {}, word_count := none }

/-- The result `semantic_search` actually returns for `c2chunk` on an empty
query: the empty string is a substring of the content, worth 100 points,
surfaced as a score of 1. -/
def c2result : SearchResult :=
  { id := S "c", content := S "hello world"
    metadata := { source_file := S "Unknown", framework := S "Unknown",
                  category := S "General", sectionField := [], word_count := 0 }
    score := 1 }

/-- A chunk about the SBI feedback framework, for scorer witnesses. -/
def sbiChunk : KChunk :=
  { id := S "sbi_0"
    content := S "Use situation behavior impact to structure feedback"
    metadata := { source_file := some (S "sbi_feedback.md")
                  framework := some (S "SBI Framework")
                  category := some (S "Performance")
                  sectionField := some (S "Intro")
                  keywords := some [S "sbi"]
                  language := some (S "english")
                  chunk_type := some (S "framework_explanation")
                  chunk_index := some 0
                  source_path := some (S "materials/sbi.md") }
    word_count := some 8 }

/-- The same chunk with every dropped metadata field changed, for the
projection-invariance witness. -/
def sbiChunkAlt : KChunk :=
  { sbiChunk with
    metadata := { sbiChunk.metadata with
                  keywords := some [S "different"]
                  language := some (S "hebrew")
                  chunk_type := some (S "examples")
                  chunk_index := some 7
                  source_path := some (S "elsewhere/sbi.md") } }

/-- First of two equal-scoring chunks, for the stable-tie witness. -/
def tieChunkA : KChunk :=
  { id := S "a", content := S "budget planning basics", metadata := {}, word_count := some 3 }

/-- Second of two equal-scoring chunks, for the stable-tie witness. -/
def tieChunkB : KChunk :=
  { id := S "b", content := S "budget review basics", metadata := {}, word_count := some 3 }

/-- A one-word document: its fallback chunk exposes the word-count/header
discrepancy of claim C5. -/
def c5doc : RawDoc :=
  { filename := S "f", file_path := S "p", content := S "w",
    word_count := 1, processing_status := successStatus }

/-- A document used by the chunking-response analyses. -/
def c6doc : RawDoc :=
  { filename := S "doc.md", file_path := S "m/doc.md", content := S "alpha beta",
    word_count := 2, processing_status := successStatus }

/-- A provider response holding a well-formed JSON object followed by prose
containing a stray right brace. -/
def c6resp : Str := S "\x7b\"chunks\": []\x7d \x7d"

/-- The first well-formed JSON object embedded in `c6resp`. -/
def c6firstObj : Str := S "\x7b\"chunks\": []\x7d"

/-- The parse of `c6firstObj`. -/
def c6firstVal : JVal := .obj [(S "chunks", .arr [])]

/-- Prose before the JSON payload (no left brace). -/
def c6pre : Str := S "Sure, here is the segmentation: "

/-- Prose after the JSON payload (no right brace). -/
def c6post : Str := S " Let me know if you need more."

/-- A provider response carrying one chunk, as a full JSON object. -/
def c6okResp : Str :=
  S "\x7b\"chunks\": [\x7b\"chunk_id\": \"u1\", \"content\": \"CONTEXT: x\\n\\nhello there\", \"metadata\": \x7b\"framework\": \"SBI\"\x7d\x7d]\x7d"

/-- The parsed value of `c6okResp`. -/
def c6okVal : JVal :=
  .obj [(S "chunks",
         .arr [.obj [(S "chunk_id", .str (S "u1")),
                     (S "content", .str (S "CONTEXT: x\n\nhello there")),
                     (S "metadata", .obj [(S "framework", .str (S "SBI"))])]])]

/-- The chunk built from `c6okResp` for `c6doc`. -/
def c6okChunk : IChunk :=
  { id := S "doc.md_u1"
    content := S "CONTEXT: x\n\nhello there"
    metadata := [(S "framework", .str (S "SBI")),
                 (S "source_file", .str (S "doc.md")),
                 (S "source_path", .str (S "m/doc.md")),
                 (S "chunk_index", .int 0)]
    word_count := 4
    char_count := 23 }

/-- An oracle modelling a provider whose call always raises. -/
def aiNone : Str → Option Str := fun _ => none

/-- A 90-word document with successful extraction, for the skip-threshold
witness (Scenario C of the specification). -/
def c7doc : RawDoc :=
  { filename := S "tiny.md", file_path := S "m/tiny.md"
    content := List.intercalate [' '] (List.replicate 90 (S "w"))
    word_count := 90, processing_status := successStatus }

/-- A 150-word document with successful extraction, for the fallback
witness. -/
def c8doc : RawDoc :=
  { filename := S "doc2.md", file_path := S "m/doc2.md"
    content := List.intercalate [' '] (List.replicate 150 (S "w"))
    word_count := 150, processing_status := successStatus }

/-- A 450-word document, for the fallback-partition witness (two windows:
400 words and 50 words). -/
def c4doc : RawDoc :=
  { filename := S "long.md", file_path := S "m/long.md"
    content := List.intercalate [' '] (List.replicate 450 (S "w"))
    word_count := 450, processing_status := successStatus }

/-- A quality-audit chunk of 50 words. -/
def qaChunk50 : IChunk :=
  { id := S "q50", content := S "CONTEXT: a\n\nbody", metadata := [(S "framework", .str (S "SBI"))],
    word_count := 50, char_count := 15 }

/-- A quality-audit chunk of 400 words. -/
def qaChunk400 : IChunk :=
  { id := S "q400", content := S "CONTEXT: a\n\nbody", metadata := [(S "framework", .str (S "SBI"))],
    word_count := 400, char_count := 15 }

/-- A quality-audit chunk of 900 words. -/
def qaChunk900 : IChunk :=
  { id := S "q900", content := S "CONTEXT: a\n\nbody", metadata := [(S "framework", .str (S "SBI"))],
    word_count := 900, char_count := 15 }


/-!
Helper lemmas shared by several claim theorems.
-/

/-- Sums of pointwise sums split. -/
theorem sum_map_add {α : Type} (l : List α) (f g : α → Nat) :
    (l.map fun x => f x + g x).sum = (l.map f).sum + (l.map g).sum := by
  induction l with
  | nil => rfl
  | cons a t ih => simp only [List.map_cons, List.sum_cons, ih]; omega

/-- A sum of 20-valued indicators is 20 times a count. -/
theorem sum_map_ite20 {α : Type} (l : List α) (p : α → Bool) :
    (l.map fun x => if p x then 20 else 0).sum = 20 * l.countP p := by
  induction l with
  | nil => rfl
  | cons a t ih =>
    simp only [List.map_cons, List.sum_cons, List.countP_cons, ih]
    by_cases h : p a <;> simp [h] <;> omega

/-- Membership in the candidate pool characterized. -/
theorem mem_scoredChunks {q : Str} {l : List KChunk} {p : KChunk × Nat} :
    p ∈ scoredChunks q l ↔ p.1 ∈ l ∧ 0 < rawScore q p.1 ∧ p.2 = rawScore q p.1 := by
  unfold scoredChunks
  simp only [List.mem_filterMap]
  constructor
  · rintro ⟨c, hc, h⟩
    by_cases hs : 0 < rawScore q c
    · rw [if_pos hs] at h
      cases h
      exact ⟨hc, hs, rfl⟩
    · rw [if_neg hs] at h
      cases h
  · rintro ⟨h1, h2, h3⟩
    refine ⟨p.1, h1, ?_⟩
    rw [if_pos h2]
    exact congrArg some (Prod.ext rfl h3.symm)

/-- C1: for every chunk and query, the raw score computed by the hybrid
relevance scorer equals the specification's additive formula (exact-phrase
bonus; per long token the 50/30 field bonuses plus occurrences times length
times 5; 20 per present table term of each category named in the query; the
SBI completion bonus of 100 and the coaching bonus of 50), and every score
surfaced by `semantic_search` is a chunk's raw score divided by 100 (the
result is packaged by `mkResult`, whose `score` field is `rawScore / 100`). -/
theorem hybrid_score_formula (q : Str) (c : KChunk) (chunks : List KChunk) (k : Nat) :
    rawScore q c = specRawScore q c
    ∧ ∀ r ∈ semantic_search q chunks k, ∃ ch ∈ chunks, r = mkResult (ch, rawScore q ch) := by
  constructor
  · unfold rawScore specRawScore
    simp only
    have e23 :
        ((splitWs (pyLower q)).map (fun w =>
          if 2 < w.length then
            (if subIn w (pyLower (c.metadata.source_file.getD [])) then 50 else 0)
            + (if subIn w (pyLower (c.metadata.framework.getD [])) then 30 else 0)
          else 0)).sum
        + ((splitWs (pyLower q)).map (fun w =>
            if 2 < w.length then countOccs (pyLower c.content) w * w.length * 5 else 0)).sum
        = ((splitWs (pyLower q)).map (fun w =>
            if 2 < w.length then
              (if subIn w (pyLower (c.metadata.source_file.getD [])) then 50 else 0)
              + (if subIn w (pyLower (c.metadata.framework.getD [])) then 30 else 0)
              + countOccs (pyLower c.content) w * w.length * 5
            else 0)).sum := by
      rw [← sum_map_add]
      apply congrArg
      apply List.map_congr_left
      intro w _
      by_cases h : 2 < w.length <;> simp [h]
    have e4 :
        (semantic_categories.map (fun p =>
          if subIn p.1 (pyLower q) then
            (p.2.map (fun t => if subIn t (pyLower c.content) then 20 else 0)).sum
          else 0)).sum
        = (semantic_categories.map (fun p =>
            if subIn p.1 (pyLower q) then
              20 * p.2.countP (fun t => subIn t (pyLower c.content))
            else 0)).sum := by
      apply congrArg
      apply List.map_congr_left
      intro p _
      by_cases h : subIn p.1 (pyLower q) <;> simp [h, sum_map_ite20]
    have e5 :
        (if subIn (S "feedback") (pyLower q)
              && ([S "situation", S "behavior", S "impact"].all
                    (fun t => subIn t (pyLower c.content)))
         then 100 else 0)
        = (if subIn (S "feedback") (pyLower q) = true
              ∧ subIn (S "situation") (pyLower c.content) = true
              ∧ subIn (S "behavior") (pyLower c.content) = true
              ∧ subIn (S "impact") (pyLower c.content) = true
           then (100 : Nat) else 0) := by
      apply if_congr _ rfl rfl
      simp [List.all_cons, and_assoc]
    have e6 :
        (if subIn (S "coaching") (pyLower q)
              && ([S "development", S "growth", S "conversation"].any
                    (fun t => subIn t (pyLower c.content)))
         then 50 else 0)
        = (if subIn (S "coaching") (pyLower q) = true
              ∧ (subIn (S "development") (pyLower c.content) = true
                 ∨ subIn (S "growth") (pyLower c.content) = true
                 ∨ subIn (S "conversation") (pyLower c.content) = true)
           then (50 : Nat) else 0) := by
      apply if_congr _ rfl rfl
      simp [List.any_cons, or_assoc]
    omega
  · intro r hr
    unfold semantic_search at hr
    simp only [List.mem_map] at hr
    obtain ⟨p, hp, rfl⟩ := hr
    have hp2 := (List.mem_insertionSort _).mp (List.mem_of_mem_take hp)
    rw [mem_scoredChunks] at hp2
    obtain ⟨h1, _, h3⟩ := hp2
    exact ⟨p.1, h1, by rw [← h3]⟩

/-- Witness for C1 at a concrete query and corpus. -/
theorem hybrid_score_formula_witness :
    rawScore (S "feedback") sbiChunk = specRawScore (S "feedback") sbiChunk
    ∧ ∃ ch ∈ [sbiChunk],
        mkResult (sbiChunk, rawScore (S "feedback") sbiChunk) = mkResult (ch, rawScore (S "feedback") ch) :=
  ⟨(hybrid_score_formula (S "feedback") sbiChunk [sbiChunk] 5).1,
   (hybrid_score_formula (S "feedback") sbiChunk [sbiChunk] 5).2
     (mkResult (sbiChunk, rawScore (S "feedback") sbiChunk))
     (by rw [show semantic_search (S "feedback") [sbiChunk] 5
               = [mkResult (sbiChunk, rawScore (S "feedback") sbiChunk)] from rfl]
         exact List.mem_singleton.mpr rfl)⟩

/-- Length of the candidate pool is the number of positive-score chunks. -/
theorem length_scoredChunks (q : Str) (l : List KChunk) :
    (scoredChunks q l).length = l.countP (fun c => 0 < rawScore q c) := by
  induction l with
  | nil => rfl
  | cons c t ih =>
    unfold scoredChunks at ih ⊢
    simp only [List.filterMap_cons]
    by_cases h : 0 < rawScore q c <;> simp [h, ih, List.countP_cons]

/-- Scores do not increase along the ranked candidate list. -/
theorem sorted_scoredChunks (q : Str) (l : List KChunk) :
    ((scoredChunks q l).insertionSort scoreGE).Pairwise scoreGE :=
  List.sorted_insertionSort scoreGE (scoredChunks q l)

/-- C3: the output of `semantic_search` has length `min top_k (number of
chunks with strictly positive raw score)`; every returned result is the
packaging of an input chunk with strictly positive raw score; the returned
scores are non-increasing; ties of the ranking keep the original corpus
order (any score-tied pair in candidate order stays in that order after the
stable sort); and the output is exactly the top `top_k` prefix of the
ranking, packaged. -/
theorem search_output_shape (q : Str) (chunks : List KChunk) (k : Nat) :
    (semantic_search q chunks k).length = min k (chunks.countP (fun c => 0 < rawScore q c))
    ∧ (∀ r ∈ semantic_search q chunks k,
        ∃ c ∈ chunks, 0 < rawScore q c ∧ r = mkResult (c, rawScore q c))
    ∧ (semantic_search q chunks k).Pairwise (fun r s => s.score ≤ r.score)
    ∧ (∀ a b : KChunk × Nat, a.2 = b.2 → [a, b].Sublist (scoredChunks q chunks) →
        [a, b].Sublist ((scoredChunks q chunks).insertionSort scoreGE))
    ∧ semantic_search q chunks k
        = (((scoredChunks q chunks).insertionSort scoreGE).take k).map mkResult := by
  refine ⟨?_, ?_, ?_, ?_, rfl⟩
  · unfold semantic_search
    rw [List.length_map, List.length_take, List.length_insertionSort, length_scoredChunks]
  · intro r hr
    unfold semantic_search at hr
    simp only [List.mem_map] at hr
    obtain ⟨p, hp, rfl⟩ := hr
    have hp2 := (List.mem_insertionSort _).mp (List.mem_of_mem_take hp)
    rw [mem_scoredChunks] at hp2
    obtain ⟨h1, h2, h3⟩ := hp2
    exact ⟨p.1, h1, h2, by rw [← h3]⟩
  · unfold semantic_search
    apply List.Pairwise.map
    · intro a b hab
      show (mkResult b).score ≤ (mkResult a).score
      unfold mkResult
      have : (b.2 : ℚ) ≤ (a.2 : ℚ) := Nat.cast_le.mpr hab
      simp only
      linarith
    · exact ((sorted_scoredChunks q chunks).sublist (List.take_sublist k _))
  · intro a b hab hsub
    exact List.pair_sublist_insertionSort (le_of_eq hab.symm) hsub

/-- Witness for C3 at a concrete query, with a genuine score tie. -/
theorem search_output_shape_witness :
    (semantic_search (S "budget") [tieChunkA, tieChunkB] 5).length
        = min 5 ([tieChunkA, tieChunkB].countP (fun c => 0 < rawScore (S "budget") c))
    ∧ [(tieChunkA, rawScore (S "budget") tieChunkA),
       (tieChunkB, rawScore (S "budget") tieChunkB)].Sublist
        ((scoredChunks (S "budget") [tieChunkA, tieChunkB]).insertionSort scoreGE) :=
  ⟨(search_output_shape (S "budget") [tieChunkA, tieChunkB] 5).1,
   (search_output_shape (S "budget") [tieChunkA, tieChunkB] 5).2.2.2.1
     (tieChunkA, rawScore (S "budget") tieChunkA)
     (tieChunkB, rawScore (S "budget") tieChunkB)
     (by decide) (by decide)⟩

/-- C2 (code bug): `semantic_search` does not guard empty or
whitespace-only queries.  The empty query is a substring of every content
(Python's vacuous containment), so every chunk scores 100 and is returned
with surfaced score 1.0 instead of the specified empty result list; a
single-space query likewise matches any content containing a space. -/
theorem empty_query_returns_results :
    semantic_search (S "") [c2chunk] 5 = [mkResult (c2chunk, 100)]
    ∧ semantic_search (S " ") [c2chunk] 5 = [mkResult (c2chunk, 100)]
    ∧ (mkResult (c2chunk, 100)).score = 1 :=
  ⟨rfl, rfl, by norm_num [mkResult]⟩

/-- The raw score reads only the content and the `source_file` and
`framework` metadata fields. -/
theorem rawScore_congr {c c' : KChunk} (q : Str) (h : sameVisible c c') :
    rawScore q c = rawScore q c' := by
  obtain ⟨_, h2, _, h4, h5, _, _⟩ := h
  unfold rawScore
  rw [h2, h4, h5]

/-- Result packaging reads only the visible chunk fields. -/
theorem mkResult_congr {c c' : KChunk} {s s' : Nat} (h : sameVisible c c') (hs : s = s') :
    mkResult (c, s) = mkResult (c', s') := by
  obtain ⟨h1, h2, h3, h4, h5, h6, h7⟩ := h
  unfold mkResult projMeta
  rw [h1, h2, h3, h4, h5, h6, h7, hs]

/-- Unfolding of the candidate pool at a cons cell. -/
theorem scoredChunks_cons (q : Str) (c : KChunk) (l : List KChunk) :
    scoredChunks q (c :: l)
      = (if 0 < rawScore q c then [(c, rawScore q c)] else []) ++ scoredChunks q l := by
  unfold scoredChunks
  rw [List.filterMap_cons]
  by_cases h : 0 < rawScore q c <;> simp [h]

/-- Visibly equal corpora produce pointwise related candidate pools. -/
theorem scored_rel {q : Str} {l l' : List KChunk} (h : List.Forall₂ sameVisible l l') :
    List.Forall₂ resultRel (scoredChunks q l) (scoredChunks q l') := by
  induction h with
  | nil => exact List.Forall₂.nil
  | @cons a b l1 l2 hcc htail ih =>
    rw [scoredChunks_cons, scoredChunks_cons, rawScore_congr q hcc]
    by_cases hg : 0 < rawScore q b
    · simp only [if_pos hg, List.singleton_append]
      exact List.Forall₂.cons ⟨rfl, mkResult_congr hcc rfl⟩ ih
    · simp only [if_neg hg, List.nil_append]
      exact ih

/-- Ordered insertion preserves the pointwise relation (the guard depends
only on the score, which the relation preserves). -/
theorem orderedInsert_rel {as bs : List (KChunk × Nat)}
    (h : List.Forall₂ resultRel as bs) {a b : KChunk × Nat} (hab : resultRel a b) :
    List.Forall₂ resultRel (List.orderedInsert scoreGE a as)
      (List.orderedInsert scoreGE b bs) := by
  induction h with
  | nil => exact List.Forall₂.cons hab List.Forall₂.nil
  | @cons x y xs ys hxy htail ih =>
    have hguard : scoreGE a x ↔ scoreGE b y := by
      unfold scoreGE
      rw [hab.1, hxy.1]
    by_cases hg : scoreGE a x
    · rw [List.orderedInsert, if_pos hg, List.orderedInsert, if_pos (hguard.mp hg)]
      exact List.Forall₂.cons hab (List.Forall₂.cons hxy htail)
    · rw [List.orderedInsert, if_neg hg, List.orderedInsert,
        if_neg (fun hg2 => hg (hguard.mpr hg2))]
      exact List.Forall₂.cons hxy ih

/-- The stable sort preserves the pointwise relation. -/
theorem insertionSort_rel {as bs : List (KChunk × Nat)}
    (h : List.Forall₂ resultRel as bs) :
    List.Forall₂ resultRel (as.insertionSort scoreGE) (bs.insertionSort scoreGE) := by
  induction h with
  | nil => exact List.Forall₂.nil
  | cons hxy _ ih => exact orderedInsert_rel ih hxy

/-- Truncation preserves pointwise relations. -/
theorem forall₂_take {α β : Type} {R : α → β → Prop} :
    ∀ (k : Nat) {l : List α} {l' : List β}, List.Forall₂ R l l' →
      List.Forall₂ R (l.take k) (l'.take k) := by
  intro k l l' h
  induction h generalizing k with
  | nil => simp [List.Forall₂.nil]
  | cons hxy _ ih =>
    cases k with
    | zero => simp [List.Forall₂.nil]
    | succ n => exact List.Forall₂.cons hxy (ih n)

/-- Related candidate lists map to identical result lists. -/
theorem map_mkResult_rel {l l' : List (KChunk × Nat)}
    (h : List.Forall₂ resultRel l l') : l.map mkResult = l'.map mkResult := by
  induction h with
  | nil => rfl
  | cons hxy _ ih => simp [hxy.2, ih]

/-- C10: every search result copies `id` and `content` from an input chunk
and carries exactly the five-field metadata projection with its defaults
(`projMeta`); and the output is invariant under arbitrary changes to the
dropped metadata fields (`keywords`, `language`, `chunk_type`,
`chunk_index`, `source_path`) of the corpus. -/
theorem result_projection (q : Str) (chunks : List KChunk) (k : Nat) :
    (∀ r ∈ semantic_search q chunks k,
       ∃ c ∈ chunks, r.id = c.id ∧ r.content = c.content ∧ r.metadata = projMeta c)
    ∧ ∀ chunks', List.Forall₂ sameVisible chunks chunks' →
        semantic_search q chunks k = semantic_search q chunks' k := by
  constructor
  · intro r hr
    unfold semantic_search at hr
    simp only [List.mem_map] at hr
    obtain ⟨p, hp, rfl⟩ := hr
    have hp2 := (List.mem_insertionSort _).mp (List.mem_of_mem_take hp)
    rw [mem_scoredChunks] at hp2
    exact ⟨p.1, hp2.1, rfl, rfl, rfl⟩
  · intro chunks' h
    unfold semantic_search
    exact map_mkResult_rel (forall₂_take k (insertionSort_rel (scored_rel h)))

/-- Witness for C10: a corpus and its dropped-field variation, plus the
projection of a concrete returned result. -/
theorem result_projection_witness :
    semantic_search (S "feedback") [sbiChunk] 5 = semantic_search (S "feedback") [sbiChunkAlt] 5
    ∧ ∃ c ∈ [sbiChunk],
        (mkResult (sbiChunk, rawScore (S "feedback") sbiChunk)).id = c.id
        ∧ (mkResult (sbiChunk, rawScore (S "feedback") sbiChunk)).content = c.content
        ∧ (mkResult (sbiChunk, rawScore (S "feedback") sbiChunk)).metadata = projMeta c := by
  constructor
  · exact (result_projection (S "feedback") [sbiChunk] 5).2 [sbiChunkAlt]
      (List.Forall₂.cons (by decide) List.Forall₂.nil)
  · exact (result_projection (S "feedback") [sbiChunk] 5).1
      (mkResult (sbiChunk, rawScore (S "feedback") sbiChunk))
      (by rw [show semantic_search (S "feedback") [sbiChunk] 5
                = [mkResult (sbiChunk, rawScore (S "feedback") sbiChunk)] from rfl]
          exact List.mem_singleton.mpr rfl)

/-- Scanning a run of non-whitespace characters extends the current word. -/
theorem splitWsGo_nonspace_append (w : Str) (hw : ∀ c ∈ w, pyIsSpace c = false)
    (cur rest : Str) : splitWsGo cur (w ++ rest) = splitWsGo (cur ++ w) rest := by
  induction w generalizing cur with
  | nil => simp
  | cons c t ih =>
    have hc : pyIsSpace c = false := hw c (List.mem_cons_self c t)
    have ht : ∀ d ∈ t, pyIsSpace d = false := fun d hd => hw d (List.mem_cons_of_mem c hd)
    rw [List.cons_append]
    simp only [splitWsGo, hc, Bool.false_eq_true, if_false]
    rw [ih ht (cur ++ [c])]
    simp

/-- A whitespace character emits the pending non-empty word. -/
theorem splitWsGo_space (cur rest : Str) (c : Char) (hc : pyIsSpace c = true)
    (hcur : cur ≠ []) : splitWsGo cur (c :: rest) = cur :: splitWsGo [] rest := by
  simp [splitWsGo, hc, hcur]

/-- At the end of input a pending non-empty word is emitted. -/
theorem splitWsGo_nil_ne (cur : Str) (h : cur ≠ []) : splitWsGo cur [] = [cur] := by
  simp [splitWsGo, h]

/-- Every word produced by the split is non-empty and whitespace-free. -/
theorem splitWsGo_words : ∀ (s cur : Str), (∀ c ∈ cur, pyIsSpace c = false) →
    ∀ w ∈ splitWsGo cur s, w ≠ [] ∧ ∀ c ∈ w, pyIsSpace c = false := by
  intro s
  induction s with
  | nil =>
    intro cur hcur w hw
    by_cases h : cur = []
    · simp [splitWsGo, h] at hw
    · rw [splitWsGo_nil_ne cur h] at hw
      rw [List.mem_singleton] at hw
      subst hw
      exact ⟨h, hcur⟩
  | cons c t ih =>
    intro cur hcur w hw
    by_cases hc : pyIsSpace c
    · simp only [splitWsGo, hc, if_true] at hw
      by_cases h : cur = []
      · simp only [h, if_true] at hw
        exact ih [] (by simp) w hw
      · simp only [h, if_false] at hw
        rcases List.mem_cons.mp hw with rfl | hw2
        · exact ⟨h, hcur⟩
        · exact ih [] (by simp) w hw2
    · simp only [splitWsGo, hc, if_false] at hw
      refine ih (cur ++ [c]) ?_ w hw
      intro d hd
      rcases List.mem_append.mp hd with hd1 | hd2
      · exact hcur d hd1
      · rw [List.mem_singleton] at hd2
        subst hd2
        exact Bool.not_eq_true _ |>.mp hc

/-- Every word of `splitWs s` is non-empty and whitespace-free. -/
theorem splitWs_words (s : Str) :
    ∀ w ∈ splitWs s, w ≠ [] ∧ ∀ c ∈ w, pyIsSpace c = false :=
  splitWsGo_words s [] (by simp)

/-- Splitting the single-space join of non-empty whitespace-free words
returns exactly those words (the round-trip core of P5). -/
theorem splitWs_intercalate : ∀ (ws : List Str),
    (∀ w ∈ ws, w ≠ [] ∧ ∀ c ∈ w, pyIsSpace c = false) →
    splitWs (List.intercalate [' '] ws) = ws := by
  intro ws
  induction ws with
  | nil => intro _; rfl
  | cons w rest ih =>
    intro h
    have hw := h w (List.mem_cons_self w rest)
    cases rest with
    | nil =>
      have he : List.intercalate [' '] [w] = w := by
        simp [List.intercalate]
      rw [he]
      unfold splitWs
      calc splitWsGo [] w = splitWsGo [] (w ++ []) := by rw [List.append_nil]
        _ = splitWsGo ([] ++ w) [] := splitWsGo_nonspace_append w hw.2 [] []
        _ = [w] := by rw [List.nil_append, splitWsGo_nil_ne w hw.1]
    | cons x rest2 =>
      have hcc : List.intercalate [' '] (w :: x :: rest2)
          = w ++ ' ' :: List.intercalate [' '] (x :: rest2) := by
        simp [List.intercalate, List.intersperse_cons_cons]
      unfold splitWs at ih ⊢
      rw [hcc, splitWsGo_nonspace_append w hw.2 [] _, List.nil_append,
        splitWsGo_space w _ ' ' (by decide) hw.1,
        ih (fun v hv => h v (List.mem_cons_of_mem w hv))]

/-- Concatenating the consecutive 400-element windows of a list
reconstructs the list. -/
theorem windows_join {α : Type} : ∀ (ws : List α),
    ((List.range ((ws.length + 399) / 400)).map
      (fun k => (ws.drop (400 * k)).take 400)).flatten = ws := by
  intro ws
  by_cases h0 : ws.length = 0
  · rw [List.length_eq_zero.mp h0]
    simp
  · have ih := windows_join (ws.drop 400)
    have hd : (ws.drop 400).length = ws.length - 400 := List.length_drop 400 ws
    have hm : (ws.length + 399) / 400 = ((ws.drop 400).length + 399) / 400 + 1 := by
      rw [hd]
      omega
    have hfun : ∀ k, ((ws.drop 400).drop (400 * k)).take 400
        = (ws.drop (400 * Nat.succ k)).take 400 := by
      intro k
      have harith : 400 * Nat.succ k = 400 + 400 * k := by omega
      rw [List.drop_drop, harith]
    rw [hm, List.range_succ_eq_map, List.map_cons, List.map_map, List.flatten_cons]
    rw [show ((fun k => (ws.drop (400 * k)).take 400) ∘ Nat.succ)
          = (fun k => ((ws.drop 400).drop (400 * k)).take 400) from
        funext fun k => (hfun k).symm]
    rw [ih]
    simp
termination_by ws => ws.length
decreasing_by
  rw [List.length_drop]
  omega

/-- C4: mechanical fallback segmentation partitions the word sequence into
consecutive 400-word windows: there are `ceil(words/400)` chunks, the k-th
chunk's content is the synthesized header followed by the single-space join
of the words at positions `400·k .. 400·k+399` (and splitting that body
recovers exactly those words), every chunk except possibly the last carries
exactly 400 words, and the windows concatenate back to the original word
sequence. -/
theorem fallback_window_partition (doc : RawDoc) :
    (fallback_chunking doc).length = ((splitWs doc.content).length + 399) / 400
    ∧ (∀ k, (hk : k < (fallback_chunking doc).length) →
        ((fallback_chunking doc).get ⟨k, hk⟩).content
            = fallbackHeader doc k
              ++ List.intercalate [' '] (((splitWs doc.content).drop (400 * k)).take 400)
          ∧ splitWs (List.intercalate [' ']
              (((splitWs doc.content).drop (400 * k)).take 400))
              = ((splitWs doc.content).drop (400 * k)).take 400
          ∧ ((fallback_chunking doc).get ⟨k, hk⟩).word_count
              = (((splitWs doc.content).drop (400 * k)).take 400).length)
    ∧ (∀ k, (hk : k + 1 < (fallback_chunking doc).length) →
        ((fallback_chunking doc).get ⟨k, Nat.lt_of_succ_lt hk⟩).word_count = 400)
    ∧ ((List.range ((fallback_chunking doc).length)).map
        (fun k => ((splitWs doc.content).drop (400 * k)).take 400)).flatten
        = splitWs doc.content := by
  have hlen : (fallback_chunking doc).length = ((splitWs doc.content).length + 399) / 400 := by
    unfold fallback_chunking
    simp
  have hget : ∀ k, (hk : k < (fallback_chunking doc).length) →
      (fallback_chunking doc).get ⟨k, hk⟩ = fallbackChunkAt doc (splitWs doc.content) k := by
    intro k hk
    unfold fallback_chunking at hk ⊢
    simp at hk ⊢
  refine ⟨hlen, ?_, ?_, ?_⟩
  · intro k hk
    rw [hget k hk]
    refine ⟨rfl, ?_, rfl⟩
    apply splitWs_intercalate
    intro w hw
    exact splitWs_words doc.content w
      (List.mem_of_mem_drop (List.mem_of_mem_take hw))
  · intro k hk
    rw [hget k (Nat.lt_of_succ_lt hk)]
    rw [hlen] at hk
    show (((splitWs doc.content).drop (400 * k)).take 400).length = 400
    rw [List.length_take, List.length_drop]
    omega
  · rw [hlen]
    exact windows_join (splitWs doc.content)

set_option maxRecDepth 40000 in
/-- Witness for C4 on a 450-word document: two chunks, the first of exactly
400 words. -/
theorem fallback_window_partition_witness :
    (fallback_chunking c4doc).length = ((splitWs c4doc.content).length + 399) / 400
    ∧ ((fallback_chunking c4doc).get ⟨0, by decide⟩).word_count = 400 :=
  ⟨(fallback_window_partition c4doc).1,
   (fallback_window_partition c4doc).2.2.1 0 (by decide)⟩

/-- C5 counterexample: the single fallback chunk of a one-word document has
`word_count = 1` and `char_count = 1` although its `content` carries the
synthesized header, whose tokens and characters are not counted. -/
theorem chunk_counts_counterexample :
    ∃ c ∈ fallback_chunking c5doc,
      ¬(c.word_count = (splitWs c.content).length
        ∧ c.char_count = c.content.length) := by
  decide

/-- A chunk built by `buildChunkItem` carries the exact counts of its
content. -/
theorem buildChunkItem_counts (doc : RawDoc) (i : Nat) (item : JVal) (c : IChunk)
    (h : buildChunkItem doc i item = some c) :
    c.word_count = (splitWs c.content).length ∧ c.char_count = c.content.length := by
  cases item <;> try exact Option.noConfusion h
  case obj cf =>
    unfold buildChunkItem at h
    rw [Option.bind_eq_some] at h
    obtain ⟨content, _, h⟩ := h
    rw [Option.bind_eq_some] at h
    obtain ⟨m, _, h⟩ := h
    rw [Option.map_eq_some'] at h
    obtain ⟨cid, _, rfl⟩ := h
    exact ⟨rfl, rfl⟩

/-- Chunks built by the AI-assisted parse loop carry the exact counts of
their content. -/
theorem buildChunkItems_counts (doc : RawDoc) : ∀ (items : List JVal) (i : Nat)
    (cs : List IChunk), buildChunkItems doc items i = some cs →
    ∀ c ∈ cs, c.word_count = (splitWs c.content).length
      ∧ c.char_count = c.content.length := by
  intro items
  induction items with
  | nil =>
    intro i cs h c hc
    unfold buildChunkItems at h
    cases h
    cases hc
  | cons item rest ih =>
    intro i cs h c hc
    unfold buildChunkItems at h
    rw [Option.bind_eq_some] at h
    obtain ⟨c0, hc0, h⟩ := h
    rw [Option.map_eq_some'] at h
    obtain ⟨cs2, hcs2, rfl⟩ := h
    rcases List.mem_cons.mp hc with rfl | hc2
    · exact buildChunkItem_counts doc i item c hc0
    · exact ih (i + 1) cs2 hcs2 c hc2

/-- C5 (amended): on the AI-assisted path every produced chunk's
`word_count` and `char_count` equal the token and character counts of its
`content`; on the mechanical fallback path they equal the counts of the
chunk body — the content with the synthesized context header stripped
(the counterexample shows the original claim fails there). -/
theorem chunk_counts_amended :
    (∀ (doc : RawDoc) (v : JVal) (cs : List IChunk), buildChunks v doc = some cs →
       ∀ c ∈ cs, c.word_count = (splitWs c.content).length
         ∧ c.char_count = c.content.length)
    ∧ (∀ (doc : RawDoc) (c : IChunk), c ∈ fallback_chunking doc →
       ∃ k body, c.content = fallbackHeader doc k ++ body
         ∧ c.word_count = (splitWs body).length
         ∧ c.char_count = body.length) := by
  constructor
  · intro doc v cs h c hc
    cases v <;> try exact Option.noConfusion h
    case obj fields =>
      simp only [buildChunks] at h
      cases hg : objGet fields (S "chunks") with
      | none =>
        rw [hg] at h
        cases h
        cases hc
      | some val =>
        rw [hg] at h
        cases val <;> try exact Option.noConfusion h
        case arr items =>
          exact buildChunkItems_counts doc items 0 cs h c hc
  · intro doc c hc
    unfold fallback_chunking at hc
    simp only [List.mem_map, List.mem_range] at hc
    obtain ⟨k, _, rfl⟩ := hc
    refine ⟨k, List.intercalate [' '] (((splitWs doc.content).drop (400 * k)).take 400),
      rfl, ?_, rfl⟩
    have hws := splitWs_intercalate (((splitWs doc.content).drop (400 * k)).take 400)
      (fun w hw => splitWs_words doc.content w
        (List.mem_of_mem_drop (List.mem_of_mem_take hw)))
    rw [hws]
    rfl

/-- Witness for C5 (amended) at a concrete AI-path chunk and a concrete
fallback chunk. -/
theorem chunk_counts_amended_witness :
    (c6okChunk.word_count = (splitWs c6okChunk.content).length
      ∧ c6okChunk.char_count = c6okChunk.content.length)
    ∧ ∃ k body,
        (fallbackChunkAt c5doc (splitWs c5doc.content) 0).content
          = fallbackHeader c5doc k ++ body
        ∧ (fallbackChunkAt c5doc (splitWs c5doc.content) 0).word_count
            = (splitWs body).length
        ∧ (fallbackChunkAt c5doc (splitWs c5doc.content) 0).char_count = body.length :=
  ⟨chunk_counts_amended.1 c6doc c6okVal [c6okChunk] rfl c6okChunk (List.mem_singleton.mpr rfl),
   chunk_counts_amended.2 c5doc (fallbackChunkAt c5doc (splitWs c5doc.content) 0)
     (by rw [show fallback_chunking c5doc
               = [fallbackChunkAt c5doc (splitWs c5doc.content) 0] from rfl]
         exact List.mem_singleton.mpr rfl)⟩

/-- C6 counterexample: for a response holding a well-formed JSON object
(`{"chunks": []}`, which parses and builds zero chunks) followed by prose
containing a stray right brace, the engine does not parse that first
object — the greedy first-brace-to-last-brace span is not valid JSON, so
the document is mechanically segmented instead (one fallback chunk). -/
theorem first_json_object_counterexample :
    jsonParse c6firstObj = some c6firstVal
    ∧ buildChunks c6firstVal c6doc = some []
    ∧ parse_chunking_response c6resp c6doc = fallback_chunking c6doc
    ∧ (parse_chunking_response c6resp c6doc).length = 1 :=
  ⟨rfl, rfl, rfl, by decide⟩

/-- The brace extraction on prose–JSON–prose inputs: when the leading prose
has no left brace, the trailing prose no right brace, and the JSON text
starts with a left and ends with a right brace, the extracted span is
exactly the JSON text. -/
theorem extractBraces_sandwich (pre j post : Str)
    (hpre : ∀ c ∈ pre, (c == lbrace) = false)
    (hpost : ∀ c ∈ post, (c == rbrace) = false)
    (hhead : j.head? = some lbrace) (hlast : j.getLast? = some rbrace) :
    extractBraces (pre ++ j ++ post) = some j := by
  obtain ⟨jt, rfl⟩ : ∃ t, j = lbrace :: t := by
    cases j with
    | nil => cases hhead
    | cons x t => exact ⟨t, by cases hhead; rfl⟩
  have hlen : 2 ≤ (lbrace :: jt).length := by
    cases jt with
    | nil =>
      rw [show (lbrace :: ([] : Str)).getLast? = some lbrace from rfl] at hlast
      cases hlast
    | cons y t2 => simp
  have hfwd : (pre ++ (lbrace :: jt) ++ post).findIdx? (fun c => c == lbrace)
      = some pre.length := by
    rw [List.findIdx?_append, List.findIdx?_append]
    rw [List.findIdx?_eq_none_iff.mpr hpre]
    simp [List.findIdx?_cons]
  have hrev : (pre ++ (lbrace :: jt) ++ post).reverse.findIdx? (fun c => c == rbrace)
      = some post.length := by
    rw [List.reverse_append, List.reverse_append]
    rw [List.findIdx?_append]
    rw [List.findIdx?_eq_none_iff.mpr (fun c hc => hpost c (List.mem_reverse.mp hc))]
    obtain ⟨rt, hrt⟩ : ∃ t, (lbrace :: jt).reverse = rbrace :: t := by
      have : (lbrace :: jt).reverse.head? = some rbrace := by
        rw [List.head?_reverse]
        exact hlast
      cases hrev2 : (lbrace :: jt).reverse with
      | nil => rw [hrev2] at this; cases this
      | cons x t => rw [hrev2] at this; cases this; exact ⟨t, rfl⟩
    rw [hrt]
    simp [List.findIdx?_cons]
  unfold extractBraces
  rw [hfwd, hrev]
  have hL : (pre ++ (lbrace :: jt) ++ post).length
      = pre.length + (lbrace :: jt).length + post.length := by
    simp only [List.length_append]
  have hq : (pre ++ (lbrace :: jt) ++ post).length - 1 - post.length
      = pre.length + ((lbrace :: jt).length - 1) := by
    rw [hL]
    omega
  simp only [hq]
  rw [if_pos (by omega)]
  have hdrop : (pre ++ (lbrace :: jt) ++ post).drop pre.length
      = (lbrace :: jt) ++ post := by
    rw [List.append_assoc, List.drop_left]
  have htake : pre.length + ((lbrace :: jt).length - 1) - pre.length + 1
      = (lbrace :: jt).length := by
    omega
  rw [hdrop, htake, List.take_left]

/-- C6 (amended): the engine extracts the span from the first left brace to
the last right brace of the whole response and parses that.  In particular
it recovers the JSON object whenever the preceding prose contains no left
brace and the following prose no right brace; and whenever the extracted
span is not valid JSON (or no span exists), the document is segmented by
the mechanical fallback. -/
theorem json_extraction_behavior :
    (∀ (pre j post : Str) (doc : RawDoc) (v : JVal) (cs : List IChunk),
       (∀ c ∈ pre, (c == lbrace) = false) → (∀ c ∈ post, (c == rbrace) = false) →
       j.head? = some lbrace → j.getLast? = some rbrace →
       jsonParse j = some v → buildChunks v doc = some cs →
       parse_chunking_response (pre ++ j ++ post) doc = cs)
    ∧ (∀ (r : Str) (doc : RawDoc),
       (∀ sub, extractBraces r = some sub → jsonParse sub = none) →
       parse_chunking_response r doc = fallback_chunking doc) := by
  constructor
  · intro pre j post doc v cs hpre hpost hhead hlast hparse hbuild
    unfold parse_chunking_response
    rw [extractBraces_sandwich pre j post hpre hpost hhead hlast]
    rw [Option.some_bind, hparse, Option.some_bind, hbuild]
    rfl
  · intro r doc h
    unfold parse_chunking_response
    cases he : extractBraces r with
    | none => rfl
    | some sub =>
      rw [Option.some_bind, h sub he, Option.none_bind]
      rfl

/-- Witness for C6 (amended): prose before and after a concrete JSON
object, and a braceless response that falls back. -/
theorem json_extraction_behavior_witness :
    parse_chunking_response (c6pre ++ c6firstObj ++ c6post) c6doc = []
    ∧ parse_chunking_response (S "no json here") c6doc = fallback_chunking c6doc :=
  ⟨json_extraction_behavior.1 c6pre c6firstObj c6post c6doc c6firstVal []
     (by decide) (by decide) rfl rfl rfl rfl,
   json_extraction_behavior.2 (S "no json here") c6doc
     (fun sub h => by
       rw [show extractBraces (S "no json here") = none from rfl] at h
       cases h)⟩

/-- Every document in the batch's failed list had a non-success extraction
status or a chunker error; with the actual (total) chunker only the former
occurs. -/
theorem chunkBatch_failed_status (ai : Str → Option Str) :
    ∀ (ds : List RawDoc), ∀ f ∈ (chunkBatch (okChunker ai) ds).2,
      f.1.processing_status ≠ successStatus := by
  intro ds
  induction ds with
  | nil => intro f hf; cases hf
  | cons d rest ih =>
    intro f hf
    simp only [chunkBatch, okChunker] at hf
    by_cases hd : d.processing_status = successStatus
    · rw [if_pos hd] at hf
      exact ih f hf
    · rw [if_neg hd] at hf
      rcases List.mem_cons.mp hf with rfl | hf2
      · exact hd
      · exact ih f hf2

/-- C7: a successfully extracted document with fewer than 100 words
produces zero chunks from the Chunking Engine (it is skipped), and it is
never recorded in the batch's `failed_documents` list. -/
theorem short_document_skipped (ai : Str → Option Str) (doc : RawDoc)
    (h1 : doc.processing_status = successStatus) (h2 : doc.word_count < 100) :
    intelligent_chunking ai doc = []
    ∧ ∀ (ds : List RawDoc) (e : Option Str),
        (doc, e) ∉ (chunkBatch (okChunker ai) ds).2 := by
  constructor
  · unfold intelligent_chunking
    rw [if_pos h2]
  · intro ds e hmem
    exact chunkBatch_failed_status ai ds (doc, e) hmem h1

/-- Witness for C7 on a 90-word successfully extracted document. -/
theorem short_document_skipped_witness :
    intelligent_chunking aiNone c7doc = []
    ∧ (c7doc, none) ∉ (chunkBatch (okChunker aiNone) [c7doc]).2 :=
  ⟨(short_document_skipped aiNone c7doc rfl (by decide)).1,
   (short_document_skipped aiNone c7doc rfl (by decide)).2 [c7doc] none⟩

/-- C8: for any per-document chunker behavior, the batch loop processes
every document — successful documents contribute their chunks in order, a
chunker error sends exactly that document (with its error) to the failed
list, and extraction failures are recorded without aborting anything; and
on the AI-assisted path, a provider failure is answered with mechanical
fallback segmentation before any document could be declared failed. -/
theorem batch_failure_containment (ch : RawDoc → Except Str (List IChunk))
    (docs : List RawDoc) (ai : Str → Option Str) :
    (chunkBatch ch docs).1
      = (docs.map (fun d =>
          if d.processing_status = successStatus then
            match ch d with
            | .ok cs => cs
            | .error _ => []
          else [])).flatten
    ∧ (chunkBatch ch docs).2
      = docs.filterMap (fun d =>
          if d.processing_status = successStatus then
            match ch d with
            | .ok _ => none
            | .error e => some (d, some e)
          else some (d, none))
    ∧ (∀ doc : RawDoc, 100 ≤ doc.word_count →
        ai (build_chunking_prompt doc.content doc.filename) = none →
        intelligent_chunking ai doc = fallback_chunking doc) := by
  refine ⟨?_, ?_, ?_⟩
  · induction docs with
    | nil => rfl
    | cons d rest ih =>
      simp only [chunkBatch, List.map_cons, List.flatten_cons]
      by_cases hd : d.processing_status = successStatus
      · cases hch : ch d with
        | ok cs => simp [hd, hch, ih]
        | error e => simp [hd, hch, ih]
      · simp [hd, ih]
  · induction docs with
    | nil => rfl
    | cons d rest ih =>
      simp only [chunkBatch, List.filterMap_cons]
      by_cases hd : d.processing_status = successStatus
      · cases hch : ch d with
        | ok cs => simp [hd, hch, ih]
        | error e => simp [hd, hch, ih]
      · simp [hd, ih]
  · intro doc hw hai
    unfold intelligent_chunking
    rw [if_neg (by omega), hai]

/-- Witness for C8: a 150-word document whose provider call raises is
mechanically segmented. -/
theorem batch_failure_containment_witness :
    intelligent_chunking aiNone c8doc = fallback_chunking c8doc :=
  (batch_failure_containment (okChunker aiNone) [] aiNone).2.2 c8doc (by decide) rfl

/-- Short and long annotations differ (their first characters differ). -/
theorem shortMsg_ne_longMsg (c : IChunk) : shortMsg c ≠ longMsg c := fun h => by
  have h2 := congrArg List.head? h
  rw [show (shortMsg c).head? = some 'S' from rfl,
    show (longMsg c).head? = some 'L' from rfl] at h2
  exact absurd (Option.some.inj h2) (by decide)

/-- Short and header annotations differ. -/
theorem shortMsg_ne_headerMsg (c c2 : IChunk) : shortMsg c ≠ headerMsg c2 := fun h => by
  have h2 := congrArg List.head? h
  rw [show (shortMsg c).head? = some 'S' from rfl,
    show (headerMsg c2).head? = some 'M' from rfl] at h2
  exact absurd (Option.some.inj h2) (by decide)

/-- Short and unknown-framework annotations differ. -/
theorem shortMsg_ne_unknownMsg (c c2 : IChunk) : shortMsg c ≠ unknownMsg c2 := fun h => by
  have h2 := congrArg List.head? h
  rw [show (shortMsg c).head? = some 'S' from rfl,
    show (unknownMsg c2).head? = some 'U' from rfl] at h2
  exact absurd (Option.some.inj h2) (by decide)

/-- Long and header annotations differ. -/
theorem longMsg_ne_headerMsg (c c2 : IChunk) : longMsg c ≠ headerMsg c2 := fun h => by
  have h2 := congrArg List.head? h
  rw [show (longMsg c).head? = some 'L' from rfl,
    show (headerMsg c2).head? = some 'M' from rfl] at h2
  exact absurd (Option.some.inj h2) (by decide)

/-- Long and unknown-framework annotations differ. -/
theorem longMsg_ne_unknownMsg (c c2 : IChunk) : longMsg c ≠ unknownMsg c2 := fun h => by
  have h2 := congrArg List.head? h
  rw [show (longMsg c).head? = some 'L' from rfl,
    show (unknownMsg c2).head? = some 'U' from rfl] at h2
  exact absurd (Option.some.inj h2) (by decide)

/-- Header and unknown-framework annotations differ. -/
theorem headerMsg_ne_unknownMsg (c c2 : IChunk) : headerMsg c ≠ unknownMsg c2 := fun h => by
  have h2 := congrArg List.head? h
  rw [show (headerMsg c).head? = some 'M' from rfl,
    show (unknownMsg c2).head? = some 'U' from rfl] at h2
  exact absurd (Option.some.inj h2) (by decide)

/-- C9: the quality audit flags a chunk short exactly when its word count
is below 300, long exactly when above 750 (the `if/elif` cannot hide a long
flag because the two conditions are incompatible), missing-header exactly
when the content starts with none of the recognized markers, and
unknown-framework exactly when the metadata framework equals "Unknown";
and the audit output over a list is precisely the per-chunk annotations
concatenated — it contains annotation strings only and leaves the chunk
list untouched. -/
theorem quality_audit_flags (cs : List IChunk) (c : IChunk) :
    (shortMsg c ∈ issuesFor c ↔ c.word_count < 300)
    ∧ (longMsg c ∈ issuesFor c ↔ 750 < c.word_count)
    ∧ (headerMsg c ∈ issuesFor c ↔ hasContextHeader c.content = false)
    ∧ (unknownMsg c ∈ issuesFor c ↔ frameworkUnknown c.metadata = true)
    ∧ identify_quality_issues cs = (cs.map issuesFor).flatten
    ∧ (∀ m, m ∈ identify_quality_issues cs ↔ ∃ c2 ∈ cs, m ∈ issuesFor c2) := by
  have e750 : chunk_size_range.2 * 3 / 2 = 750 := rfl
  have e300 : chunk_size_range.1 = 300 := rfl
  refine ⟨?_, ?_, ?_, ?_, rfl, ?_⟩
  · unfold issuesFor
    rw [e750, e300]
    by_cases h1 : c.word_count < 300 <;>
      by_cases h2 : 750 < c.word_count <;>
      simp [h1, h2, shortMsg_ne_longMsg, shortMsg_ne_headerMsg, shortMsg_ne_unknownMsg,
        List.mem_append]
  · unfold issuesFor
    rw [e750, e300]
    by_cases h1 : c.word_count < 300 <;>
      by_cases h2 : 750 < c.word_count <;>
      simp [h1, h2, (shortMsg_ne_longMsg c).symm, longMsg_ne_headerMsg,
        longMsg_ne_unknownMsg, List.mem_append] <;>
      omega
  · unfold issuesFor
    by_cases h3 : hasContextHeader c.content <;>
      by_cases h1 : c.word_count < chunk_size_range.1 <;>
      by_cases h2 : chunk_size_range.2 * 3 / 2 < c.word_count <;>
      simp [h1, h2, h3, (shortMsg_ne_headerMsg c c).symm, (longMsg_ne_headerMsg c c).symm,
        headerMsg_ne_unknownMsg, List.mem_append]
  · unfold issuesFor
    by_cases h4 : frameworkUnknown c.metadata <;>
      by_cases h1 : c.word_count < chunk_size_range.1 <;>
      by_cases h2 : chunk_size_range.2 * 3 / 2 < c.word_count <;>
      by_cases h3 : hasContextHeader c.content <;>
      simp [h1, h2, h3, h4, (shortMsg_ne_unknownMsg c c).symm,
        (longMsg_ne_unknownMsg c c).symm, (headerMsg_ne_unknownMsg c c).symm,
        List.mem_append]
  · intro m
    unfold identify_quality_issues
    simp [List.mem_flatten, List.mem_map]

/-- Witness for C9 on the 50/400/900-word scenario: the 50-word chunk is
flagged short, the 900-word chunk long, and the 400-word chunk receives no
word-count flag. -/
theorem quality_audit_flags_witness :
    shortMsg qaChunk50 ∈ issuesFor qaChunk50
    ∧ longMsg qaChunk900 ∈ issuesFor qaChunk900
    ∧ shortMsg qaChunk400 ∉ issuesFor qaChunk400
    ∧ longMsg qaChunk400 ∉ issuesFor qaChunk400 :=
  ⟨(quality_audit_flags [] qaChunk50).1.mpr (by decide),
   (quality_audit_flags [] qaChunk900).2.1.mpr (by decide),
   fun h => absurd ((quality_audit_flags [] qaChunk400).1.mp h) (by decide),
   fun h => absurd ((quality_audit_flags [] qaChunk400).2.1.mp h) (by decide)⟩
